import Mathlib

/-!
Verification development for the domain-name training repository's
quality-assessment pipeline: the four deterministic scorers
(constraint satisfaction, diversity, pronounceability, premium),
the RLHF judge orchestrator and preference-pair constructor, and the
evaluation runner's result comparison.

Python strings are modelled as `List Char`; Python floats as `ℚ`
(all of the pipeline's constants are exact decimals, so the rational
model is the idealisation of the float computation); Python `re`
patterns that the source uses are compiled by hand into deterministic
scanners (each pattern here admits no real backtracking, because every
character class involved is disjoint from the character that must
follow it, so the greedy maximal run is the only candidate match).
Python's `str.lower` and the character predicates (`isdigit`,
`isalpha`, `\s`) are modelled on their ASCII behaviour, plus the
common Unicode whitespace for `\s`.
-/

/-- ASCII lowercasing, the model of Python `str.lower` for the characters
the source's regexes can match. -/
def pyLower (c : Char) : Char :=
  if 'A' ≤ c ∧ c ≤ 'Z' then Char.ofNat (c.toNat + 32) else c

/-- Python `s.lower()` over the character list. -/
def lowerStr (s : List Char) : List Char := s.map pyLower

/-- Python's `\s` / `str.strip` whitespace: ASCII whitespace plus the
Unicode whitespace code points. -/
def isPySpace (c : Char) : Bool :=
  let n := c.toNat
  n = 32 || (9 ≤ n && n ≤ 13) || (28 ≤ n && n ≤ 31) || n = 133 || n = 160 ||
    n = 5760 || (8192 ≤ n && n ≤ 8202) || n = 8232 || n = 8233 ||
    n = 8239 || n = 8287 || n = 12288

def isLowerAlpha (c : Char) : Bool := 'a' ≤ c && c ≤ 'z'

def isUpperAlpha (c : Char) : Bool := 'A' ≤ c && c ≤ 'Z'

/-- Python `str.isalpha`, restricted to ASCII letters. -/
def isAsciiLetter (c : Char) : Bool := isLowerAlpha c || isUpperAlpha c

/-- Python `str.isdigit`, restricted to ASCII digits (`[0-9]`). -/
def isDigitCh (c : Char) : Bool := '0' ≤ c && c ≤ '9'

/-- The character class `[a-z0-9-]` of the domain-extraction regex. -/
def isNameChar (c : Char) : Bool := isLowerAlpha c || isDigitCh c || c = '-'

/-- The separator class `[—\-–]` of the domain-extraction regex:
em dash, hyphen, en dash. -/
def isDashSep (c : Char) : Bool := c = '—' || c = '-' || c = '–'

/-- Python `w in s` for strings: `w` occurs as a contiguous substring. -/
def containsSub (w : List Char) : List Char → Bool
  | [] => w.isEmpty
  | c :: rest => w.isPrefixOf (c :: rest) || containsSub w rest

/-- Python `s.endswith(w)`. -/
def endsWithL (w s : List Char) : Bool := w.isSuffixOf s

/-- Index of the first occurrence of substring `w`, if any
(Python `s.find(w)` when non-negative). -/
def subIdx (w : List Char) : List Char → Option Nat
  | [] => if w.isEmpty then some 0 else none
  | c :: rest =>
      if w.isPrefixOf (c :: rest) then some 0
      else (subIdx w rest).map (· + 1)

/-- Python `s.strip()`: drop `\s` characters from both ends. -/
def pyStrip (l : List Char) : List Char :=
  ((l.dropWhile isPySpace).reverse.dropWhile isPySpace).reverse

/-- Python `s.strip(ch)` for a one-character strip set. -/
def stripChar (ch : Char) (l : List Char) : List Char :=
  ((l.dropWhile (· == ch)).reverse.dropWhile (· == ch)).reverse

/-- Python `s.split(sep)` on a single character, keeping empty parts. -/
def splitChAux (sep : Char) : List Char → List Char → List (List Char)
  | [], acc => [acc.reverse]
  | c :: rest, acc =>
      if c = sep then acc.reverse :: splitChAux sep rest []
      else splitChAux sep rest (c :: acc)

def splitCh (sep : Char) (l : List Char) : List (List Char) := splitChAux sep l []

/-- Round-half-to-even on rationals, the model of Python's `round(x)`:
at a tie (fractional part exactly one half) `2 * round (x / 2)` picks the
even neighbour, elsewhere ordinary nearest-integer rounding. -/
def rhe (x : ℚ) : ℤ :=
  if Int.fract x = 1 / 2 then 2 * round (x / 2) else round x

/-- Python `round(x, 3)`. -/
def round3 (x : ℚ) : ℚ := (rhe (x * 1000) : ℚ) / 1000

/-- One attempted match of the shared extraction regex
`([a-z0-9-]+)\.([a-z]{2,10})\s*[—\-–]` at the head of `l`
(`constraint_satisfaction.parse_domains_from_response`). Each quantifier
is forced to its maximal run because no shorter run can be followed by
the next required character, so the scan is deterministic. Returns the
two captured groups and the suffix after the match. -/
def tryMatch (l : List Char) : Option (List Char × List Char × List Char) :=
  let name := l.takeWhile isNameChar
  let r1 := l.dropWhile isNameChar
  if name.isEmpty then none
  else
    match r1 with
    | dot :: r2 =>
        if dot = '.' then
          let tld := r2.takeWhile isLowerAlpha
          let r3 := r2.dropWhile isLowerAlpha
          if 2 ≤ tld.length && tld.length ≤ 10 then
            match r3.dropWhile isPySpace with
            | c :: r5 => if isDashSep c then some (name, tld, r5) else none
            | [] => none
          else none
        else none
    | [] => none

/-- `re.finditer` over the pair-capturing pattern: try a match at every
position left to right, resuming after each match. Fuel-indexed so the
kernel can evaluate it; each step consumes at least one character, so
`length + 1` fuel always suffices. -/
def scanDomainsAux : Nat → List Char → List (List Char × List Char)
  | 0, _ => []
  | fuel + 1, l =>
      match tryMatch l with
      | some m => (m.1, m.2.1) :: scanDomainsAux fuel m.2.2
      | none =>
          match l with
          | [] => []
          | _ :: rest => scanDomainsAux fuel rest

def scanDomains (l : List Char) : List (List Char × List Char) :=
  scanDomainsAux (l.length + 1) l

/-- One attempted match of the name-only pattern
`([a-z0-9-]+)\.[a-z]{2,10}\s*[—\-–]` (the `parse_domain_names` of
`diversity_metrics` and `pronounceability`): same shape, only the name
is captured. -/
def tryMatchName (l : List Char) : Option (List Char × List Char) :=
  let name := l.takeWhile isNameChar
  let r1 := l.dropWhile isNameChar
  if name.isEmpty then none
  else
    match r1 with
    | dot :: r2 =>
        if dot = '.' then
          let tld := r2.takeWhile isLowerAlpha
          let r3 := r2.dropWhile isLowerAlpha
          if 2 ≤ tld.length && tld.length ≤ 10 then
            match r3.dropWhile isPySpace with
            | c :: r5 => if isDashSep c then some (name, r5) else none
            | [] => none
          else none
        else none
    | [] => none

def scanNamesAux : Nat → List Char → List (List Char)
  | 0, _ => []
  | fuel + 1, l =>
      match tryMatchName l with
      | some m => m.1 :: scanNamesAux fuel m.2
      | none =>
          match l with
          | [] => []
          | _ :: rest => scanNamesAux fuel rest

def scanNames (l : List Char) : List (List Char) :=
  scanNamesAux (l.length + 1) l

/-- The premium scorer's own copy of the extraction regex
(`premium_score.parse_domains` duplicates the pattern of
`constraint_satisfaction.parse_domains_from_response`). -/
def tryMatchP (l : List Char) : Option (List Char × List Char × List Char) :=
  let name := l.takeWhile isNameChar
  let r1 := l.dropWhile isNameChar
  if name.isEmpty then none
  else
    match r1 with
    | dot :: r2 =>
        if dot = '.' then
          let tld := r2.takeWhile isLowerAlpha
          let r3 := r2.dropWhile isLowerAlpha
          if 2 ≤ tld.length && tld.length ≤ 10 then
            match r3.dropWhile isPySpace with
            | c :: r5 => if isDashSep c then some (name, tld, r5) else none
            | [] => none
          else none
        else none
    | [] => none

def scanDomainsPAux : Nat → List Char → List (List Char × List Char)
  | 0, _ => []
  | fuel + 1, l =>
      match tryMatchP l with
      | some m => (m.1, m.2.1) :: scanDomainsPAux fuel m.2.2
      | none =>
          match l with
          | [] => []
          | _ :: rest => scanDomainsPAux fuel rest

def scanDomainsP (l : List Char) : List (List Char × List Char) :=
  scanDomainsPAux (l.length + 1) l

namespace CS

/-- Result record of `constraint_satisfaction.check_constraints`
(`ConstraintResult`): four sub-scores and their unweighted mean. -/
structure ConstraintResult where
  length_satisfied : ℚ
  tld_satisfied : ℚ
  prefix_suffix_satisfied : ℚ
  count_satisfied : ℚ
  overall : ℚ
  deriving DecidableEq

/-- `constraint_satisfaction.parse_domains_from_response`: run the shared
regex over the lowercased response, collecting (name, tld) pairs. -/
def parse_domains_from_response (response : List Char) : List (List Char × List Char) :=
  scanDomains (lowerStr response)

/-- The outputs of the four regex constraint extractors
(`extract_length_constraint`, `extract_tld_constraint`,
`extract_count_constraint`, `extract_prefix_suffix_constraint`), abstracted
as the optional values they yield from the prompt. `check_constraints` is a
function of these values and of the parsed domains; every theorem below
quantifies over all values, which covers every possible prompt. -/
structure PromptC where
  lengthC : Option (Nat × Nat)
  tldC : Option (List (List Char))
  countC : Option Nat
  pfxC : Option (List Char)
  sfxC : Option (List Char)

/-- Python truthiness of an optional string (`None` and `""` are falsy). -/
def truthyS : Option (List Char) → Bool
  | none => false
  | some s => !s.isEmpty

/-- Python truthiness of an optional list (`None` and `[]` are falsy). -/
def truthyL : Option (List (List Char)) → Bool
  | none => false
  | some l => !l.isEmpty

/-- Python truthiness of an optional int (`None` and `0` are falsy). -/
def truthyN : Option Nat → Bool
  | none => false
  | some n => n != 0

/-- The count tolerance band of `check_constraints` (lines 150-157):
`ratio = found / target`; 1.0 inside `[0.8, 1.2]`, `ratio / 0.8` below,
`1.2 / ratio` above. -/
def countScore (found target : Nat) : ℚ :=
  let ratio : ℚ := (found : ℚ) / (target : ℚ)
  if 4 / 5 ≤ ratio ∧ ratio ≤ 6 / 5 then 1
  else if ratio < 4 / 5 then ratio / (4 / 5)
  else (6 / 5) / ratio

/-- Per-domain credit of the prefix/suffix loop of `check_constraints`
(lines 135-142): the `if`/`elif`/`elif` chain, substring branch first. -/
def psCredit (pfxC sfxC : Option (List Char)) (name : List Char) : Bool :=
  if truthyS pfxC && containsSub (pfxC.getD []) name then true
  else if truthyS sfxC && endsWithL (sfxC.getD []) name then true
  else if !truthyS pfxC && !truthyS sfxC then true
  else false

/-- `constraint_satisfaction.check_constraints`: the four constraint
sub-scores over the parsed domains, each rounded to 3 decimals, with the
empty-extraction early return of all zeros. -/
def check_constraints (pc : PromptC) (response : List Char) : ConstraintResult :=
  let domains := parse_domains_from_response response
  if domains.isEmpty then ⟨0, 0, 0, 0, 0⟩
  else
    let n : ℚ := (domains.length : ℚ)
    let length_satisfied : ℚ :=
      match pc.lengthC with
      | some (mn, mx) =>
          ((domains.countP (fun d => decide (mn ≤ d.1.length) && decide (d.1.length ≤ mx)) : ℚ)) / n
      | none => 1
    let tld_satisfied : ℚ :=
      if truthyL pc.tldC then
        ((domains.countP (fun d => (pc.tldC.getD []).contains d.2) : ℚ)) / n
      else 1
    let prefix_suffix_satisfied : ℚ :=
      if truthyS pc.pfxC || truthyS pc.sfxC then
        (if truthyS pc.pfxC || truthyS pc.sfxC then
          ((domains.countP (fun d => psCredit pc.pfxC pc.sfxC d.1) : ℚ)) / n
        else 1)
      else 1
    let count_satisfied : ℚ :=
      if truthyN pc.countC then countScore domains.length (pc.countC.getD 0) else 1
    let overall :=
      (length_satisfied + tld_satisfied + prefix_suffix_satisfied + count_satisfied) / 4
    ⟨round3 length_satisfied, round3 tld_satisfied, round3 prefix_suffix_satisfied,
      round3 count_satisfied, round3 overall⟩

end CS

namespace DM

/-- Result record of `diversity_metrics.check_diversity`
(`DiversityResult`). -/
structure DiversityResult where
  type_token_ratio : ℚ
  duplicate_rate : ℚ
  char_diversity : ℚ
  prefix_diversity : ℚ
  suffix_diversity : ℚ
  overall : ℚ
  deriving DecidableEq

/-- `diversity_metrics.parse_domain_names`: the name-only extraction over
the lowercased response. -/
def parse_domain_names (response : List Char) : List (List Char) :=
  scanNames (lowerStr response)

/-- The overlapping character 3-grams of one name
(`[name[i:i+3] for i in range(len(name) - 2)]`). -/
def ngrams3 (name : List Char) : List (List Char) :=
  (List.range (name.length - 2)).map (fun i => (name.drop i).take 3)

/-- `diversity_metrics.calculate_ttr`: unique 3-grams over total 3-grams,
1.0 when no name is long enough to contribute a 3-gram, 0.0 on no names. -/
def calculate_ttr (names : List (List Char)) : ℚ :=
  if names.isEmpty then 0
  else
    let all_ngrams := (names.map ngrams3).flatten
    if all_ngrams.isEmpty then 1
    else ((all_ngrams.dedup.length : ℚ)) / ((all_ngrams.length : ℚ))

/-- `diversity_metrics.calculate_duplicate_rate`:
`(total - unique) / total`, 0.0 on no names. -/
def calculate_duplicate_rate (names : List (List Char)) : ℚ :=
  if names.isEmpty then 0
  else ((names.length : ℚ) - (names.dedup.length : ℚ)) / ((names.length : ℚ))

/-- `diversity_metrics.calculate_char_diversity`: unique characters over
the 36-symbol alphabet, capped at 1.0. -/
def calculate_char_diversity (names : List (List Char)) : ℚ :=
  if names.isEmpty then 0
  else
    let all_chars := names.flatten
    if all_chars.isEmpty then 0
    else min ((all_chars.dedup.length : ℚ) / 36) 1

/-- `diversity_metrics.calculate_prefix_diversity` at the default
`prefix_len = 2`: unique first-2-character affixes over the count of
names of length at least 2. -/
def calculate_prefix_diversity (names : List (List Char)) : ℚ :=
  let ps := (names.filter (fun nm => decide (2 ≤ nm.length))).map (fun nm => nm.take 2)
  if ps.isEmpty then 0
  else ((ps.dedup.length : ℚ)) / ((ps.length : ℚ))

/-- `diversity_metrics.calculate_suffix_diversity` at the default
`suffix_len = 2` (`name[-2:]` is the last two characters). -/
def calculate_suffix_diversity (names : List (List Char)) : ℚ :=
  let ss := (names.filter (fun nm => decide (2 ≤ nm.length))).map
    (fun nm => nm.drop (nm.length - 2))
  if ss.isEmpty then 0
  else ((ss.dedup.length : ℚ)) / ((ss.length : ℚ))

/-- `diversity_metrics.check_diversity`: the five diversity metrics of one
response, rounded to 3 decimals, with the empty-extraction result
`(0, 1, 0, 0, 0, 0)` (worst-case duplicate rate 1.0). -/
def check_diversity (response : List Char) : DiversityResult :=
  let names := parse_domain_names response
  if names.isEmpty then ⟨0, 1, 0, 0, 0, 0⟩
  else
    let ttr := calculate_ttr names
    let dup_rate := calculate_duplicate_rate names
    let char_div := calculate_char_diversity names
    let prefix_div := calculate_prefix_diversity names
    let suffix_div := calculate_suffix_diversity names
    let overall := (ttr + (1 - dup_rate) + char_div + prefix_div + suffix_div) / 5
    ⟨round3 ttr, round3 dup_rate, round3 char_div, round3 prefix_div,
      round3 suffix_div, round3 overall⟩

end DM

namespace PN

/-- `VOWELS = set('aeiouy')` of `pronounceability`. -/
def isVowelY (c : Char) : Bool :=
  c = 'a' || c = 'e' || c = 'i' || c = 'o' || c = 'u' || c = 'y'

/-- The vowel class `[aeiou]` used by the good/bad regex patterns. -/
def isVowel5 (c : Char) : Bool :=
  c = 'a' || c = 'e' || c = 'i' || c = 'o' || c = 'u'

/-- The consonant class `[bcdfghjkmnpqstvwxz]` of the 4-in-a-row bad
pattern (it omits l and r). -/
def isBadConsonant (c : Char) : Bool :=
  c = 'b' || c = 'c' || c = 'd' || c = 'f' || c = 'g' || c = 'h' || c = 'j' ||
  c = 'k' || c = 'm' || c = 'n' || c = 'p' || c = 'q' || c = 's' || c = 't' ||
  c = 'v' || c = 'w' || c = 'x' || c = 'z'

/-- The full consonant class `[bcdfghjklmnpqrstvwxz]` of the trailing-
consonant bad pattern. -/
def isConsonantFull (c : Char) : Bool :=
  c = 'b' || c = 'c' || c = 'd' || c = 'f' || c = 'g' || c = 'h' || c = 'j' ||
  c = 'k' || c = 'l' || c = 'm' || c = 'n' || c = 'p' || c = 'q' || c = 'r' ||
  c = 's' || c = 't' || c = 'v' || c = 'w' || c = 'x' || c = 'z'

/-- The rare-consonant class `[qxz]`. -/
def isRareQXZ (c : Char) : Bool := c = 'q' || c = 'x' || c = 'z'

/-- The consonant class `[bcdfghjklmnprstvwz]` of the CV/VC good patterns
(it omits q and x). -/
def isCVConsonant (c : Char) : Bool :=
  c = 'b' || c = 'c' || c = 'd' || c = 'f' || c = 'g' || c = 'h' || c = 'j' ||
  c = 'k' || c = 'l' || c = 'm' || c = 'n' || c = 'p' || c = 'r' || c = 's' ||
  c = 't' || c = 'v' || c = 'w' || c = 'z'

/-- The leading-consonant class `[bcdfghjklmnprstvw]` of the last good
pattern (it omits q, x and z). -/
def isLeadConsonant (c : Char) : Bool :=
  c = 'b' || c = 'c' || c = 'd' || c = 'f' || c = 'g' || c = 'h' || c = 'j' ||
  c = 'k' || c = 'l' || c = 'm' || c = 'n' || c = 'p' || c = 'r' || c = 's' ||
  c = 't' || c = 'v' || c = 'w'

/-- Count of maximal runs of `p`-characters of length at least `m`
(`cur` is the length of the current run): the number of non-overlapping
greedy matches `re.findall` finds for a pattern like `[...]{m,}`. -/
def countRunsAux (p : Char → Bool) (m : Nat) : List Char → Nat → Nat
  | [], cur => if 0 < cur ∧ m ≤ cur then 1 else 0
  | c :: rest, cur =>
      if p c then countRunsAux p m rest (cur + 1)
      else (if 0 < cur ∧ m ≤ cur then 1 else 0) + countRunsAux p m rest 0

def countRuns (p : Char → Bool) (m : Nat) (l : List Char) : Nat :=
  countRunsAux p m l 0

/-- Whether some adjacent character pair satisfies `p` then `q`
(`re.search` of a two-class pattern). -/
def hasPair (p q : Char → Bool) (l : List Char) : Bool :=
  (l.zip l.tail).any (fun cd => p cd.1 && q cd.2)

/-- Result record of `pronounceability.check_pronounceability`
(`PronounceabilityResult`). -/
structure PronounceabilityResult where
  vowel_ratio : ℚ
  consonant_cluster_score : ℚ
  pattern_score : ℚ
  length_score : ℚ
  overall : ℚ
  deriving DecidableEq

/-- `pronounceability.calculate_vowel_ratio`: banded score of the
fraction of letters in `aeiouy`. -/
def calculate_vowel_ratio (name : List Char) : ℚ :=
  let letters := (lowerStr name).filter isAsciiLetter
  if letters.isEmpty then 0
  else
    let ratio : ℚ := ((letters.countP isVowelY : ℚ)) / ((letters.length : ℚ))
    if 3 / 10 ≤ ratio ∧ ratio ≤ 1 / 2 then 1
    else if (1 / 5 ≤ ratio ∧ ratio < 3 / 10) ∨ (1 / 2 < ratio ∧ ratio ≤ 3 / 5) then 7 / 10
    else if (1 / 10 ≤ ratio ∧ ratio < 1 / 5) ∨ (3 / 5 < ratio ∧ ratio ≤ 7 / 10) then 2 / 5
    else 1 / 5

/-- `pronounceability.calculate_consonant_cluster_score`: count the
matches of the six `BAD_PATTERNS` and band the total. -/
def calculate_consonant_cluster_score (name : List Char) : ℚ :=
  let nm := lowerStr name
  let bad_count : Nat :=
    countRuns isBadConsonant 4 nm +
    countRuns isVowel5 3 nm +
    countRuns isRareQXZ 2 nm +
    (match nm with
      | c :: _ => if c = 'x' || c = 'z' then 1 else 0
      | [] => 0) +
    countRuns isDigitCh 3 nm +
    (match nm.getLast? with
      | some c => if isConsonantFull c then 1 else 0
      | none => 0)
  if bad_count = 0 then 1
  else if bad_count = 1 then 7 / 10
  else if bad_count = 2 then 2 / 5
  else 1 / 5

/-- `pronounceability.calculate_pattern_score`: count how many of the
nine `GOOD_PATTERNS` match and normalize by 4, capped at 1.0. -/
def calculate_pattern_score (name : List Char) : ℚ :=
  let nm := lowerStr name
  let good_count : Nat :=
    (if nm.any isVowel5 then 1 else 0) +
    (if hasPair isCVConsonant isVowel5 nm then 1 else 0) +
    (if hasPair isVowel5 isCVConsonant nm then 1 else 0) +
    (if endsWithL ['i', 'n', 'g'] nm then 1 else 0) +
    (if endsWithL ['i', 'f', 'y'] nm then 1 else 0) +
    (if endsWithL ['l', 'y'] nm then 1 else 0) +
    (if endsWithL ['i', 'o'] nm then 1 else 0) +
    (if endsWithL ['i', 'a'] nm then 1 else 0) +
    (match nm with
      | c :: _ => if isLeadConsonant c then 1 else 0
      | [] => 0)
  min (((good_count : ℚ)) / 4) 1

/-- `pronounceability.calculate_length_score`: banded length score on the
raw name. -/
def calculate_length_score (name : List Char) : ℚ :=
  let length := name.length
  if 5 ≤ length ∧ length ≤ 10 then 1
  else if 4 ≤ length ∧ length ≤ 12 then 4 / 5
  else if 3 ≤ length ∧ length ≤ 15 then 3 / 5
  else 3 / 10

/-- `pronounceability.check_pronounceability`: the weighted rubric for one
name, computed on its alphabetic-only lowercased residue
(`re.sub(r'[^a-z]', '', name.lower())`), all zero when nothing alphabetic
remains; the length score alone sees the raw name. -/
def check_pronounceability (name : List Char) : PronounceabilityResult :=
  let alpha_name := (lowerStr name).filter isLowerAlpha
  if alpha_name.isEmpty then ⟨0, 0, 0, 0, 0⟩
  else
    let vowel_ratio := calculate_vowel_ratio alpha_name
    let cluster_score := calculate_consonant_cluster_score alpha_name
    let pattern_score := calculate_pattern_score alpha_name
    let length_score := calculate_length_score name
    let overall :=
      vowel_ratio * (1 / 4) + cluster_score * (7 / 20) +
      pattern_score * (1 / 4) + length_score * (3 / 20)
    ⟨round3 vowel_ratio, round3 cluster_score, round3 pattern_score,
      round3 length_score, round3 overall⟩

/-- `pronounceability.parse_domain_names` (the same name-only pattern as
the diversity module's copy). -/
def parse_domain_names (response : List Char) : List (List Char) :=
  scanNames (lowerStr response)

/-- `pronounceability.check_pronounceability_response`: the arithmetic
mean of the per-name results, rounded, all zero when no names parse. -/
def check_pronounceability_response (response : List Char) : PronounceabilityResult :=
  let names := parse_domain_names response
  if names.isEmpty then ⟨0, 0, 0, 0, 0⟩
  else
    let results := names.map check_pronounceability
    let n : ℚ := (results.length : ℚ)
    ⟨round3 (((results.map (·.vowel_ratio)).sum) / n),
      round3 (((results.map (·.consonant_cluster_score)).sum) / n),
      round3 (((results.map (·.pattern_score)).sum) / n),
      round3 (((results.map (·.length_score)).sum) / n),
      round3 (((results.map (·.overall)).sum) / n)⟩

end PN

namespace PM

/-- `premium_score.VALUABLE_WORDS`: the valuable-word set. -/
def VALUABLE_WORDS : List (List Char) :=
  ["get".toList, "try".toList, "go".toList, "my".toList, "the".toList,
   "app".toList, "hub".toList, "lab".toList, "box".toList, "kit".toList,
   "pro".toList, "max".toList, "top".toList, "best".toList, "fast".toList,
   "easy".toList, "smart".toList, "super".toList, "mega".toList,
   "cloud".toList, "data".toList, "code".toList, "dev".toList, "tech".toList,
   "web".toList, "net".toList, "link".toList, "sync".toList,
   "flow".toList, "stream".toList, "wave".toList, "spark".toList,
   "bolt".toList, "flash".toList, "swift".toList, "quick".toList,
   "zen".toList, "nova".toList, "pixel".toList, "byte".toList, "bit".toList,
   "node".toList, "mesh".toList, "grid".toList, "stack".toList,
   "ai".toList, "ml".toList, "api".toList, "io".toList, "fx".toList,
   "hq".toList, "os".toList, "ux".toList, "ui".toList]

/-- `premium_score.VALUABLE_SUFFIXES` (the Python set literal repeats
some entries; membership is what matters). -/
def VALUABLE_SUFFIXES : List (List Char) :=
  ["ly".toList, "ify".toList, "io".toList, "fy".toList, "er".toList,
   "hub".toList, "lab".toList, "box".toList, "hq".toList,
   "ai".toList, "app".toList, "dev".toList, "pro".toList, "max".toList,
   "able".toList, "ful".toList]

/-- `premium_score.TLD_VALUES.get(tld, 0.4)`: the TLD value table with its
0.4 default. -/
def tldValue (tld : List Char) : ℚ :=
  if tld = "com".toList then 1
  else if tld = "io".toList then 9 / 10
  else if tld = "co".toList then 17 / 20
  else if tld = "ai".toList then 9 / 10
  else if tld = "app".toList then 4 / 5
  else if tld = "dev".toList then 4 / 5
  else if tld = "net".toList then 7 / 10
  else if tld = "org".toList then 13 / 20
  else if tld = "xyz".toList then 1 / 2
  else if tld = "one".toList then 3 / 5
  else if tld = "tech".toList then 7 / 10
  else 2 / 5

/-- Result record of `premium_score.check_premium` (`PremiumResult`). -/
structure PremiumResult where
  length_score : ℚ
  word_score : ℚ
  tld_score : ℚ
  pattern_score : ℚ
  memorability_score : ℚ
  overall : ℚ
  deriving DecidableEq

/-- `premium_score.parse_domains`: the premium module's own copy of the
shared extraction pattern. -/
def parse_domains (response : List Char) : List (List Char × List Char) :=
  scanDomainsP (lowerStr response)

/-- `premium_score.calculate_length_score`: banded, shorter is better. -/
def calculate_length_score (name : List Char) : ℚ :=
  let length := name.length
  if length ≤ 4 then 1
  else if length ≤ 6 then 9 / 10
  else if length ≤ 8 then 7 / 10
  else if length ≤ 10 then 1 / 2
  else if length ≤ 12 then 2 / 5
  else 3 / 10

/-- Python `s.isalpha()` on the ASCII model: non-empty and all letters. -/
def pyIsAlpha (l : List Char) : Bool := !l.isEmpty && l.all isAsciiLetter

/-- `premium_score.calculate_word_score`: base 0.5, +0.2 for a valuable
word anywhere (once), +0.15 for a valuable suffix (once), +0.1 for a
short all-letter name, capped at 1.0. -/
def calculate_word_score (name : List Char) : ℚ :=
  let name_lower := lowerStr name
  let score : ℚ := 1 / 2 +
    (if VALUABLE_WORDS.any (fun w => containsSub w name_lower) then 1 / 5 else 0) +
    (if VALUABLE_SUFFIXES.any (fun s => endsWithL s name_lower) then 3 / 20 else 0) +
    (if pyIsAlpha name_lower && decide (name_lower.length ≤ 8) then 1 / 10 else 0)
  min score 1

/-- `premium_score.calculate_tld_score`. -/
def calculate_tld_score (tld : List Char) : ℚ := tldValue (lowerStr tld)

/-- `re.search(r'(.)\1{2,}', s)`: some character (other than a newline,
which `.` does not match) repeated three or more times consecutively. -/
def hasTripleRun : List Char → Bool
  | a :: b :: c :: rest =>
      (a == b && b == c && a != '\n') || hasTripleRun (b :: c :: rest)
  | _ => false

/-- `premium_score.calculate_pattern_score`: base 0.5, +0.2 all-letters,
+0.1 no 3+ repeated character, +0.1 starts with a letter, +0.1 no hyphen,
capped at 1.0. (Python would raise an IndexError at `name_lower[0]` on an
empty name; extracted names are never empty, and the empty case here
takes the no-bonus branch.) -/
def calculate_pattern_score (name : List Char) : ℚ :=
  let name_lower := lowerStr name
  let score : ℚ := 1 / 2 +
    (if pyIsAlpha name_lower then 1 / 5 else 0) +
    (if !hasTripleRun name_lower then 1 / 10 else 0) +
    (match name_lower with
      | c :: _ => if isAsciiLetter c then (1 : ℚ) / 10 else 0
      | [] => 0) +
    (if !name_lower.contains '-' then 1 / 10 else 0)
  min score 1

/-- `easy_chars = set('abcdefghijklmnoprstuvwy')` (q, x, z are missing). -/
def isEasyChar (c : Char) : Bool :=
  c = 'a' || c = 'b' || c = 'c' || c = 'd' || c = 'e' || c = 'f' || c = 'g' ||
  c = 'h' || c = 'i' || c = 'j' || c = 'k' || c = 'l' || c = 'm' || c = 'n' ||
  c = 'o' || c = 'p' || c = 'r' || c = 's' || c = 't' || c = 'u' || c = 'v' ||
  c = 'w' || c = 'y'

/-- The rare-letter pair check `re.search(r'[xzq]{2,}', s)`: two adjacent
characters from x, z, q. -/
def hasRarePair (l : List Char) : Bool :=
  (l.zip l.tail).any (fun cd => PN.isRareQXZ cd.1 && PN.isRareQXZ cd.2)

/-- `premium_score.calculate_memorability_score`: base 0.5, +0.2 short,
+0.1 has a vowel, +0.1 no rare-letter pair, plus up to 0.1 scaled by the
fraction of easy-to-type characters, capped at 1.0. (Python would divide
by zero on an empty name; extracted names are never empty, and `ℚ`
division by zero yields 0 here.) -/
def calculate_memorability_score (name : List Char) : ℚ :=
  let name_lower := lowerStr name
  let char_ease : ℚ := ((name_lower.countP isEasyChar : ℚ)) / ((name_lower.length : ℚ))
  let score : ℚ := 1 / 2 +
    (if name_lower.length ≤ 7 then 1 / 5 else 0) +
    (if name_lower.any PN.isVowel5 then 1 / 10 else 0) +
    (if !hasRarePair name_lower then 1 / 10 else 0) +
    char_ease * (1 / 10)
  min score 1

/-- `premium_score.check_premium`: the weighted brandability rubric for
one (name, tld), each field rounded to 3 decimals. -/
def check_premium (name tld : List Char) : PremiumResult :=
  let length_score := calculate_length_score name
  let word_score := calculate_word_score name
  let tld_score := calculate_tld_score tld
  let pattern_score := calculate_pattern_score name
  let memorability_score := calculate_memorability_score name
  let overall :=
    length_score * (1 / 4) + word_score * (1 / 5) + tld_score * (1 / 5) +
    pattern_score * (3 / 20) + memorability_score * (1 / 5)
  ⟨round3 length_score, round3 word_score, round3 tld_score,
    round3 pattern_score, round3 memorability_score, round3 overall⟩

/-- `premium_score.check_premium_response`: the arithmetic mean of the
per-domain results, rounded, all zero when no domains parse. -/
def check_premium_response (response : List Char) : PremiumResult :=
  let domains := parse_domains response
  if domains.isEmpty then ⟨0, 0, 0, 0, 0, 0⟩
  else
    let results := domains.map (fun d => check_premium d.1 d.2)
    let n : ℚ := (results.length : ℚ)
    ⟨round3 (((results.map (·.length_score)).sum) / n),
      round3 (((results.map (·.word_score)).sum) / n),
      round3 (((results.map (·.tld_score)).sum) / n),
      round3 (((results.map (·.pattern_score)).sum) / n),
      round3 (((results.map (·.memorability_score)).sum) / n),
      round3 (((results.map (·.overall)).sum) / n)⟩

end PM

namespace RL

/-- One judge's parsed rubric (`generate_preferences` judge JSON):
the five numeric fields the evaluation prompt requests. -/
structure Verdict where
  brandability : ℚ
  pronounceability : ℚ
  constraint : ℚ
  creativity : ℚ
  overall : ℚ
  deriving DecidableEq

def neutralVerdict : Verdict := ⟨5, 5, 5, 5, 5⟩

/-- The observable outcome of one judge HTTP call, before `call_judge`'s
fallback handling: a parsable verdict, or one of the failure modes the
source's `try`/`except` arms distinguish. -/
inductive JudgeReply where
  | parsed (v : Verdict)
  | httpErr
  | apiErr
  | jsonErr
  | timeoutErr
  | otherErr
  deriving DecidableEq

/-- `generate_preferences.call_judge`: every failure mode — non-200
status, embedded API error, malformed JSON, timeout, any other
exception — is caught inside the function and replaced by the neutral
all-5 verdict; only a parsed verdict comes through unchanged. -/
def call_judge : JudgeReply → Verdict
  | .parsed v => v
  | _ => neutralVerdict

/-- `generate_preferences.DomainCandidate`: a candidate with the blended
per-field scores (`None` models the empty `combined_scores` dict, which
arises only when every judge task raised) and the final combined score. -/
structure DomainCandidate where
  domain : List Char
  scores : Option Verdict
  combined_score : ℚ
  deriving DecidableEq

/-- `generate_preferences.score_candidate`: each judge is a weight
paired with its `asyncio.gather` slot — `Except.error` models a task
exception surfaced by `return_exceptions=True` (skipped by the
`isinstance(result, Exception)` check), `Except.ok` the verdict
`call_judge` returned. Contributors' fields are weight-summed, divided by
`total_weight` when positive, and the final score is the fixed 0.25 /
0.20 / 0.25 / 0.15 / 0.15 blend with the 5-default for missing keys. -/
def score_candidate (domain : List Char)
    (judges : List (ℚ × Except Unit JudgeReply)) : DomainCandidate :=
  let results := judges.map (fun wr => (wr.1, wr.2.map call_judge))
  let contribs := results.filterMap (fun wr =>
    match wr.2 with
    | .ok v => some (wr.1, v)
    | .error _ => none)
  let total_weight : ℚ := (contribs.map (·.1)).sum
  let sums : Verdict :=
    ⟨(contribs.map (fun wv => wv.2.brandability * wv.1)).sum,
      (contribs.map (fun wv => wv.2.pronounceability * wv.1)).sum,
      (contribs.map (fun wv => wv.2.constraint * wv.1)).sum,
      (contribs.map (fun wv => wv.2.creativity * wv.1)).sum,
      (contribs.map (fun wv => wv.2.overall * wv.1)).sum⟩
  let combined : Verdict :=
    if 0 < total_weight then
      ⟨sums.brandability / total_weight, sums.pronounceability / total_weight,
        sums.constraint / total_weight, sums.creativity / total_weight,
        sums.overall / total_weight⟩
    else sums
  let scores : Option Verdict := if contribs.isEmpty then none else some combined
  let final_score : ℚ :=
    (match scores with | some v => v.brandability | none => 5) * (1 / 4) +
    (match scores with | some v => v.pronounceability | none => 5) * (1 / 5) +
    (match scores with | some v => v.constraint | none => 5) * (1 / 4) +
    (match scores with | some v => v.creativity | none => 5) * (3 / 20) +
    (match scores with | some v => v.overall | none => 5) * (3 / 20)
  ⟨domain, scores, final_score⟩

/-- One insertion step of Python's stable descending sort
(`sorted(candidates, key=lambda x: x.combined_score, reverse=True)`):
an element is placed before the first strictly-smaller-or-equal score,
so among equal scores the earlier-listed candidate stays first. -/
def insertDesc (c : DomainCandidate) : List DomainCandidate → List DomainCandidate
  | [] => [c]
  | d :: ds =>
      if d.combined_score ≤ c.combined_score then c :: d :: ds
      else d :: insertDesc c ds

def sortDesc : List DomainCandidate → List DomainCandidate
  | [] => []
  | c :: cs => insertDesc c (sortDesc cs)

/-- `generate_preferences.create_preference_pairs`: sort descending, take
the top candidate as `best`, and pair it against every other candidate
whose score gap exceeds 0.5; fewer than two candidates yield no pairs. -/
def create_preference_pairs (candidates : List DomainCandidate) :
    List (DomainCandidate × DomainCandidate) :=
  match sortDesc candidates with
  | best :: other :: rest =>
      ((other :: rest).filter
        (fun o => decide (1 / 2 < best.combined_score - o.combined_score))).map
        (fun o => (best, o))
  | _ => []

/-- The numbering removal of `extract_domains_from_response`: when the
line starts with a digit and has a dot among its first three characters,
`line.split(".", 1)[1].strip()`. -/
def numStrip (line : List Char) : List Char :=
  if (match line with | c :: _ => isDigitCh c | [] => false) &&
      (line.take 3).contains '.' then
    pyStrip ((line.dropWhile (· != '.')).drop 1)
  else line

/-- The bullet removal: `line[1:].strip()` when the line starts with a
hyphen. -/
def bulletStrip (line : List Char) : List Char :=
  if line.take 1 = ['-'] then pyStrip (line.drop 1) else line

/-- `line.split(w)[0].strip()` applied only when `w` occurs
(the source guards each split with an `in` test). -/
def cutAfter (w : List Char) (line : List Char) : List Char :=
  match subIdx w line with
  | some i => pyStrip (line.take i)
  | none => line

/-- The final validation of one cleaned line: strip asterisks, backticks
and whitespace, then keep the result only when it is non-empty, contains
a dot and is shorter than 50 characters. -/
def finishLine (line : List Char) : Option (List Char) :=
  let domain := pyStrip (stripChar (Char.ofNat 96) (stripChar '*' line))
  if !domain.isEmpty && domain.contains '.' && decide (domain.length < 50) then
    some domain
  else none

/-- The per-line cleanup of
`generate_preferences.extract_domains_from_response`: strip, skip empty
lines and headers, remove numbering and bullets, cut rationale text
after a spaced dash or an opening parenthesis, then validate. -/
def cleanLine (line0 : List Char) : Option (List Char) :=
  let line := pyStrip line0
  if line.isEmpty then none
  else if line.take 1 = ['#'] then none
  else if line.take 4 = ['H', 'e', 'r', 'e'] then none
  else
    finishLine (cutAfter (" (".toList)
      (cutAfter (" - ".toList) (bulletStrip (numStrip line))))

/-- `generate_preferences.extract_domains_from_response`: strip the
response, split into lines, clean each line, cap at 10 domains. -/
def extract_domains_from_response (response : List Char) : List (List Char) :=
  ((splitCh '\n' (pyStrip response)).filterMap cleanLine).take 10

/-- The candidate-pool step of `generate_preferences.main` (line 382):
`list(set(all_domains))[:candidates_per_prompt * 2]`. Set iteration
order is unspecified in Python; it is modelled as first-occurrence
order, which the cardinality bound proved below does not depend on. -/
def candidate_pool (all_domains : List (List Char)) (cpp : Nat) : List (List Char) :=
  all_domains.dedup.take (cpp * 2)

end RL

namespace RE

/-- The three-way classification arrow of
`run_evaluation.compare_results` (up, down, unchanged). -/
inductive Arrow where
  | up
  | down
  | flat
  deriving DecidableEq

/-- `run_evaluation.compare_results` line 172:
`arrow = "↑" if diff > 0 else "↓" if diff < 0 else "="` with
`diff = v2 - v1` — a strict sign test, no epsilon. -/
def compare_arrow (v1 v2 : ℚ) : Arrow :=
  if 0 < v2 - v1 then .up
  else if v2 - v1 < 0 then .down
  else .flat

/-- Modelled from the spec's words (for comparison with the source's
`compare_arrow`): a three-way classification at a fixed epsilon of
0.001 — a field whose absolute difference is at most 0.001 is
unchanged, and only larger differences count as up or down. -/
def spec_arrow (v1 v2 : ℚ) : Arrow :=
  if |v2 - v1| ≤ 1 / 1000 then .flat
  else if 0 < v2 - v1 then .up
  else .down

end RE

/-- The closed unit interval property the spec asserts of every rubric
sub-score. -/
def inUnit (x : ℚ) : Prop := 0 ≤ x ∧ x ≤ 1

/-- All five constraint fields in the unit interval. -/
def constraintInUnit (r : CS.ConstraintResult) : Prop :=
  inUnit r.length_satisfied ∧ inUnit r.tld_satisfied ∧
    inUnit r.prefix_suffix_satisfied ∧ inUnit r.count_satisfied ∧ inUnit r.overall

/-- All six diversity fields in the unit interval. -/
def diversityInUnit (r : DM.DiversityResult) : Prop :=
  inUnit r.type_token_ratio ∧ inUnit r.duplicate_rate ∧ inUnit r.char_diversity ∧
    inUnit r.prefix_diversity ∧ inUnit r.suffix_diversity ∧ inUnit r.overall

/-- All five pronounceability fields in the unit interval. -/
def pronounceInUnit (r : PN.PronounceabilityResult) : Prop :=
  inUnit r.vowel_ratio ∧ inUnit r.consonant_cluster_score ∧
    inUnit r.pattern_score ∧ inUnit r.length_score ∧ inUnit r.overall

/-- All six premium fields in the unit interval. -/
def premiumInUnit (r : PM.PremiumResult) : Prop :=
  inUnit r.length_score ∧ inUnit r.word_score ∧ inUnit r.tld_score ∧
    inUnit r.pattern_score ∧ inUnit r.memorability_score ∧ inUnit r.overall

-- ===================== end of definitions; theorems follow =====================

theorem rhe_bounds (x : ℚ) : x - 1 / 2 ≤ (rhe x : ℚ) ∧ (rhe x : ℚ) ≤ x + 1 / 2 := by
  unfold rhe
  split
  · rename_i h
    have hx : (⌊x⌋ : ℚ) + 1 / 2 = x := by
      have := Int.floor_add_fract x
      rw [h] at this
      linarith
    rcases Int.even_or_odd ⌊x⌋ with ⟨k, hk⟩ | ⟨k, hk⟩
    · have hx2 : x / 2 = (k : ℚ) + 1 / 4 := by
        rw [← hx, hk]
        push_cast
        ring
      have : round (x / 2) = k := by
        rw [hx2, round_int_add]
        norm_num [round_eq]
      rw [this]
      constructor
      · push_cast
        rw [← hx, hk]
        push_cast
        linarith
      · push_cast
        rw [← hx, hk]
        push_cast
        linarith
    · have hx2 : x / 2 = (k : ℚ) + 3 / 4 := by
        rw [← hx, hk]
        push_cast
        ring
      have : round (x / 2) = k + 1 := by
        rw [hx2, round_int_add]
        norm_num [round_eq]
      rw [this]
      constructor
      · push_cast
        rw [← hx, hk]
        push_cast
        linarith
      · push_cast
        rw [← hx, hk]
        push_cast
        linarith
  · rw [round_eq]
    constructor
    · have := Int.sub_one_lt_floor (x + 1 / 2)
      linarith
    · have := Int.floor_le (x + 1 / 2)
      linarith

theorem round3_inUnit {x : ℚ} (h : inUnit x) : inUnit (round3 x) := by
  obtain ⟨h0, h1⟩ := h
  have hb := rhe_bounds (x * 1000)
  have hlow : (0 : ℤ) ≤ rhe (x * 1000) := by
    have h2 : (-1 : ℤ) < rhe (x * 1000) := by
      have : (-1 : ℚ) < (rhe (x * 1000) : ℚ) := by linarith
      exact_mod_cast this
    omega
  have hhigh : rhe (x * 1000) ≤ 1000 := by
    have : (rhe (x * 1000) : ℚ) < 1001 := by linarith
    have h2 : rhe (x * 1000) < 1001 := by exact_mod_cast this
    omega
  constructor
  · unfold round3
    positivity
  · unfold round3
    rw [div_le_one (by norm_num)]
    exact_mod_cast hhigh

theorem inUnit_div_of_le {k n : ℕ} (hk : k ≤ n) : inUnit ((k : ℚ) / (n : ℚ)) := by
  rcases Nat.eq_zero_or_pos n with hn | hn
  · subst hn
    interval_cases k
    simp [inUnit]
  · constructor
    · positivity
    · rw [div_le_one (by exact_mod_cast hn)]
      exact_mod_cast hk

theorem inUnit_avg_map {α : Type} (l : List α) (f : α → ℚ) (hne : l ≠ [])
    (h : ∀ a ∈ l, inUnit (f a)) : inUnit (((l.map f).sum) / ((l.length : ℚ))) := by
  have hlen : (0 : ℚ) < (l.length : ℚ) := by
    have : 0 < l.length := List.length_pos.mpr hne
    exact_mod_cast this
  have hsum0 : 0 ≤ (l.map f).sum := by
    apply List.sum_nonneg
    intro x hx
    obtain ⟨a, ha, rfl⟩ := List.mem_map.mp hx
    exact (h a ha).1
  have hsum1 : (l.map f).sum ≤ ((l.length : ℚ)) := by
    calc (l.map f).sum ≤ (l.map f).length • (1 : ℚ) := by
          apply List.sum_le_card_nsmul
          intro x hx
          obtain ⟨a, ha, rfl⟩ := List.mem_map.mp hx
          exact (h a ha).2
      _ = ((l.length : ℚ)) := by simp
  exact ⟨by positivity, by rw [div_le_one hlen]; exact hsum1⟩

theorem tryMatchName_eq (l : List Char) :
    tryMatchName l = (tryMatch l).map (fun x => (x.1, x.2.2)) := by
  unfold tryMatch tryMatchName
  by_cases h : (l.takeWhile isNameChar).isEmpty
  · simp [h]
  · simp only [h, Bool.false_eq_true, if_false]
    rcases hr : l.dropWhile isNameChar with _ | ⟨c, r2⟩
    · simp
    · by_cases hc : c = '.'
      · subst hc
        simp only [if_pos rfl]
        by_cases hl : (2 ≤ (r2.takeWhile isLowerAlpha).length &&
            (r2.takeWhile isLowerAlpha).length ≤ 10) = true
        · simp only [hl, if_true]
          rcases hw : (r2.dropWhile isLowerAlpha).dropWhile isPySpace with _ | ⟨d, r5⟩
          · simp
          · by_cases hd : isDashSep d = true
            · simp [hd]
            · simp [hd]
        · simp [hl]
      · simp [hc]

theorem tryMatchP_eq (l : List Char) : tryMatchP l = tryMatch l := rfl

theorem scanDomainsAux_succ (n : Nat) (l : List Char) : scanDomainsAux (n + 1) l =
    (match tryMatch l with
      | some m => (m.1, m.2.1) :: scanDomainsAux n m.2.2
      | none =>
          match l with
          | [] => []
          | _ :: rest => scanDomainsAux n rest) := rfl

theorem scanNamesAux_succ (n : Nat) (l : List Char) : scanNamesAux (n + 1) l =
    (match tryMatchName l with
      | some m => m.1 :: scanNamesAux n m.2
      | none =>
          match l with
          | [] => []
          | _ :: rest => scanNamesAux n rest) := rfl

theorem scanDomainsPAux_succ (n : Nat) (l : List Char) : scanDomainsPAux (n + 1) l =
    (match tryMatchP l with
      | some m => (m.1, m.2.1) :: scanDomainsPAux n m.2.2
      | none =>
          match l with
          | [] => []
          | _ :: rest => scanDomainsPAux n rest) := rfl

theorem scanNamesAux_eq (fuel : Nat) :
    ∀ l : List Char, scanNamesAux fuel l = (scanDomainsAux fuel l).map Prod.fst := by
  induction fuel with
  | zero => intro l; simp [scanNamesAux, scanDomainsAux]
  | succ n ih =>
      intro l
      rw [scanNamesAux_succ, scanDomainsAux_succ, tryMatchName_eq]
      rcases hm : tryMatch l with _ | ⟨name, tld, rest⟩
      · rcases l with _ | ⟨c, rest⟩
        · simp
        · simpa using ih rest
      · simpa using ih rest

theorem scanNames_eq (l : List Char) : scanNames l = (scanDomains l).map Prod.fst :=
  scanNamesAux_eq (l.length + 1) l

theorem scanDomainsPAux_eq (fuel : Nat) :
    ∀ l : List Char, scanDomainsPAux fuel l = scanDomainsAux fuel l := by
  induction fuel with
  | zero => intro l; simp [scanDomainsPAux, scanDomainsAux]
  | succ n ih =>
      intro l
      rw [scanDomainsPAux_succ, scanDomainsAux_succ, tryMatchP_eq]
      rcases hm : tryMatch l with _ | ⟨name, tld, rest⟩
      · rcases l with _ | ⟨c, rest⟩
        · simp
        · simpa using ih rest
      · simpa using ih rest

theorem scanDomainsP_eq (l : List Char) : scanDomainsP l = scanDomains l :=
  scanDomainsPAux_eq (l.length + 1) l

theorem mem_insertDesc (c : RL.DomainCandidate) (ds : List RL.DomainCandidate)
    (x : RL.DomainCandidate) : x ∈ RL.insertDesc c ds ↔ x = c ∨ x ∈ ds := by
  induction ds with
  | nil => simp [RL.insertDesc]
  | cons d ds ih =>
      rw [RL.insertDesc]
      split
      · simp [or_comm, or_assoc]
      · simp only [List.mem_cons, ih]
        tauto

theorem pairwise_insertDesc (c : RL.DomainCandidate) (ds : List RL.DomainCandidate)
    (hd : ds.Pairwise (fun a b => b.combined_score ≤ a.combined_score)) :
    (RL.insertDesc c ds).Pairwise (fun a b => b.combined_score ≤ a.combined_score) := by
  induction ds with
  | nil => simp [RL.insertDesc]
  | cons d ds ih =>
      rw [RL.insertDesc]
      rcases List.pairwise_cons.mp hd with ⟨hdall, hds⟩
      split
      · rename_i hle
        refine List.pairwise_cons.mpr ⟨?_, hd⟩
        intro b hb
        rcases List.mem_cons.mp hb with rfl | hb
        · exact hle
        · exact le_trans (hdall b hb) hle
      · rename_i hnle
        refine List.pairwise_cons.mpr ⟨?_, ih hds⟩
        intro b hb
        rcases (mem_insertDesc c ds b).mp hb with rfl | hb
        · exact le_of_not_le hnle
        · exact hdall b hb

theorem sortDesc_pairwise (cs : List RL.DomainCandidate) :
    (RL.sortDesc cs).Pairwise (fun a b => b.combined_score ≤ a.combined_score) := by
  induction cs with
  | nil => simp [RL.sortDesc]
  | cons c cs ih => exact pairwise_insertDesc c (RL.sortDesc cs) ih

theorem filter_insertDesc (q : ℚ) (c : RL.DomainCandidate)
    (ds : List RL.DomainCandidate) :
    (RL.insertDesc c ds).filter (fun x => decide (x.combined_score = q)) =
      (c :: ds).filter (fun x => decide (x.combined_score = q)) := by
  induction ds with
  | nil => simp [RL.insertDesc]
  | cons d ds ih =>
      rw [RL.insertDesc]
      split
      · rfl
      · rename_i hnle
        have hne : ¬ d.combined_score = c.combined_score := by
          intro h
          exact hnle (le_of_eq h)
        by_cases hdq : d.combined_score = q
        · by_cases hcq : c.combined_score = q
          · exact absurd (hcq.trans hdq.symm) fun h => hne h.symm
          · simp only [List.filter_cons]
            simp only [decide_eq_true_eq, hdq, hcq, if_true, if_false]
            rw [ih]
            simp [List.filter_cons, hcq, hdq]
        · simp only [List.filter_cons]
          simp only [decide_eq_true_eq, hdq, if_false]
          rw [ih]
          simp [List.filter_cons, hdq]

theorem sortDesc_filter_eq (cs : List RL.DomainCandidate) (q : ℚ) :
    (RL.sortDesc cs).filter (fun x => decide (x.combined_score = q)) =
      cs.filter (fun x => decide (x.combined_score = q)) := by
  induction cs with
  | nil => rfl
  | cons c cs ih =>
      rw [RL.sortDesc, filter_insertDesc]
      simp only [List.filter_cons]
      rw [ih]

theorem sortDesc_perm (cs : List RL.DomainCandidate) :
    (RL.sortDesc cs).Perm cs := by
  induction cs with
  | nil => rfl
  | cons c cs ih =>
      have h1 : (RL.insertDesc c (RL.sortDesc cs)).Perm (c :: RL.sortDesc cs) := by
        clear ih
        induction RL.sortDesc cs with
        | nil => rfl
        | cons d ds ihh =>
            rw [RL.insertDesc]
            split
            · rfl
            · exact (ihh.cons d).trans (List.Perm.swap c d ds)
      exact h1.trans (ih.cons c)

/-- C9: for every response string, the Constraint Scorer's extractor and
the Premium Scorer's extractor return identical ordered (name, tld)
lists, the Diversity and Pronounceability Scorers' name-only extractors
return exactly the first components of that list in the same order, and
extraction is deterministic (a pure function: parsing the same response
twice yields the identical list). -/
theorem c9_extractors_agree (r : List Char) :
    PM.parse_domains r = CS.parse_domains_from_response r ∧
    DM.parse_domain_names r = (CS.parse_domains_from_response r).map Prod.fst ∧
    PN.parse_domain_names r = (CS.parse_domains_from_response r).map Prod.fst ∧
    CS.parse_domains_from_response r = CS.parse_domains_from_response r := by
  refine ⟨?_, ?_, ?_, rfl⟩
  · unfold PM.parse_domains CS.parse_domains_from_response
    exact scanDomainsP_eq (lowerStr r)
  · unfold DM.parse_domain_names CS.parse_domains_from_response
    exact scanNames_eq (lowerStr r)
  · unfold PN.parse_domain_names CS.parse_domains_from_response
    exact scanNames_eq (lowerStr r)

/-- C3: the Preference Pair Constructor sorts candidates by
`combined_score` descending — stably: candidates of equal score keep
their original relative order, the head of the sorted list is a maximum
of the input — and pairs the single top candidate `best` against exactly
those other candidates whose score is more than 0.5 below it; fewer than
two candidates yield no pairs; and on the 8.0 / 7.4 / 6.0 / 9.0 example
the 9.0 candidate is best and all three pairs are emitted. -/
theorem c3_preference_pairs :
    (∀ cs : List RL.DomainCandidate, cs.length < 2 →
      RL.create_preference_pairs cs = []) ∧
    (∀ (cs : List RL.DomainCandidate) (p : RL.DomainCandidate × RL.DomainCandidate),
      p ∈ RL.create_preference_pairs cs ↔
        ∃ rest, RL.sortDesc cs = p.1 :: rest ∧ p.2 ∈ rest ∧
          1 / 2 < p.1.combined_score - p.2.combined_score) ∧
    (∀ cs : List RL.DomainCandidate,
      (RL.sortDesc cs).Pairwise (fun a b => b.combined_score ≤ a.combined_score)) ∧
    (∀ (cs : List RL.DomainCandidate) (q : ℚ),
      (RL.sortDesc cs).filter (fun x => decide (x.combined_score = q)) =
        cs.filter (fun x => decide (x.combined_score = q))) ∧
    (∀ (cs : List RL.DomainCandidate) (best : RL.DomainCandidate)
        (rest : List RL.DomainCandidate), RL.sortDesc cs = best :: rest →
      ∀ c ∈ cs, c.combined_score ≤ best.combined_score) ∧
    RL.create_preference_pairs
        [⟨"a".toList, none, 8⟩, ⟨"b".toList, none, 37 / 5⟩,
          ⟨"c".toList, none, 6⟩, ⟨"d".toList, none, 9⟩] =
      [(⟨"d".toList, none, 9⟩, ⟨"a".toList, none, 8⟩),
        (⟨"d".toList, none, 9⟩, ⟨"b".toList, none, 37 / 5⟩),
        (⟨"d".toList, none, 9⟩, ⟨"c".toList, none, 6⟩)] := by
  refine ⟨?_, ?_, sortDesc_pairwise, sortDesc_filter_eq, ?_,
    by norm_num [RL.create_preference_pairs, RL.sortDesc, RL.insertDesc]⟩
  · intro cs hlen
    have hl : (RL.sortDesc cs).length < 2 := by
      rw [(sortDesc_perm cs).length_eq]
      exact hlen
    unfold RL.create_preference_pairs
    rcases hs : RL.sortDesc cs with _ | ⟨best, _ | ⟨other, rest⟩⟩
    · rfl
    · rfl
    · rw [hs] at hl
      simp only [List.length_cons] at hl
      exact absurd hl (by omega)
  · intro cs p
    unfold RL.create_preference_pairs
    rcases hs : RL.sortDesc cs with _ | ⟨best, _ | ⟨other, rest⟩⟩
    · simp
    · simp
    · simp only [List.mem_map, List.mem_filter, decide_eq_true_eq]
      constructor
      · rintro ⟨o, ⟨ho, hgap⟩, rfl⟩
        exact ⟨other :: rest, rfl, ho, hgap⟩
      · rintro ⟨rest', hrest', hmem, hgap⟩
        injection hrest' with h1 h2
        subst h1
        subst h2
        exact ⟨p.2, ⟨hmem, hgap⟩, rfl⟩
  · intro cs best rest hs c hc
    have hmem : c ∈ RL.sortDesc cs := (sortDesc_perm cs).mem_iff.mpr hc
    rw [hs] at hmem
    rcases List.mem_cons.mp hmem with rfl | hmem
    · exact le_refl _
    · have := sortDesc_pairwise cs
      rw [hs] at this
      exact (List.pairwise_cons.mp this).1 c hmem

/-- C3 witness: the empty-list clause applied at a concrete input. -/
theorem c3_preference_pairs_witness : RL.create_preference_pairs [] = [] :=
  c3_preference_pairs.1 [] (by decide)

/-- C6: when zero domains are extracted, the Constraint Scorer returns
the all-zero result whatever constraints the prompt declares (the early
return precedes every constraint check and every division, so no
exception can arise). -/
theorem c6_empty_domains_zero (pc : CS.PromptC) (response : List Char)
    (h : CS.parse_domains_from_response response = []) :
    CS.check_constraints pc response = ⟨0, 0, 0, 0, 0⟩ := by
  unfold CS.check_constraints
  rw [h]
  rfl

/-- C6 witness: the empty response with every constraint kind present. -/
theorem c6_empty_domains_zero_witness :
    CS.check_constraints
        ⟨some (4, 10), some ["com".toList], some 6, some ("nova".toList),
          some ("ly".toList)⟩ [] =
      ⟨0, 0, 0, 0, 0⟩ :=
  c6_empty_domains_zero _ [] rfl

/-- C7: a response with no extractable names yields duplicate rate 1.0
and every other diversity field 0.0; and a non-empty name list whose
names all have length at most 2 has an empty 3-gram multiset, for which
the type-token ratio is defined as 1.0 instead of dividing by zero. -/
theorem c7_diversity_empty_cases :
    (∀ response : List Char, DM.parse_domain_names response = [] →
      DM.check_diversity response = ⟨0, 1, 0, 0, 0, 0⟩) ∧
    (∀ names : List (List Char), names ≠ [] → (∀ nm ∈ names, nm.length ≤ 2) →
      DM.calculate_ttr names = 1) := by
  constructor
  · intro response h
    unfold DM.check_diversity
    rw [h]
    rfl
  · intro names hne hshort
    unfold DM.calculate_ttr
    rw [if_neg (by simpa using hne)]
    have hng : (names.map DM.ngrams3).flatten = [] := by
      rw [List.flatten_eq_nil_iff]
      intro x hx
      obtain ⟨nm, hnm, rfl⟩ := List.mem_map.mp hx
      unfold DM.ngrams3
      rw [Nat.sub_eq_zero_of_le (hshort nm hnm)]
      rfl
    rw [hng]
    rfl

/-- C7 witness: the empty response, and a list of one two-character
name. -/
theorem c7_diversity_empty_cases_witness :
    DM.check_diversity [] = ⟨0, 1, 0, 0, 0, 0⟩ ∧
    DM.calculate_ttr [['a', 'b']] = 1 :=
  ⟨c7_diversity_empty_cases.1 [] rfl,
    c7_diversity_empty_cases.2 [['a', 'b']] (by decide) (by decide)⟩

/-- C8: with both a required-substring constraint and a suffix
constraint present, a domain is credited exactly when the substring
occurs anywhere in the name or — only otherwise — the name ends with the
suffix (substring branch first); each domain contributes at most one
credit, and a domain satisfying both constraints still counts exactly
once. -/
theorem c8_substring_before_suffix (p s : List Char) (hp : p ≠ []) (hs : s ≠ []) :
    (∀ name : List Char,
      (CS.psCredit (some p) (some s) name = true ↔
        (containsSub p name = true ∨
          (containsSub p name = false ∧ endsWithL s name = true)))) ∧
    (∀ name : List Char, containsSub p name = true → endsWithL s name = true →
      [name].countP (fun nm => CS.psCredit (some p) (some s) nm) = 1) ∧
    (∀ domains : List (List Char),
      domains.countP (fun nm => CS.psCredit (some p) (some s) nm) ≤
        domains.length) := by
  have htp : CS.truthyS (some p) = true := by
    simp [CS.truthyS]
    exact hp
  have hts : CS.truthyS (some s) = true := by
    simp [CS.truthyS]
    exact hs
  refine ⟨?_, ?_, fun domains => List.countP_le_length _⟩
  · intro name
    unfold CS.psCredit
    rw [htp, hts]
    cases hc : containsSub p name
    · cases he : endsWithL s name
      · simp [hc, he]
      · simp [hc, he]
    · simp [hc]
  · intro name hc he
    rw [List.countP_cons, List.countP_nil]
    unfold CS.psCredit
    rw [htp, hts]
    simp [hc]

/-- C8 witness: the claim instantiated at the substring "nova", the
suffix "ly" and a name satisfying both. -/
theorem c8_substring_before_suffix_witness :
    CS.psCredit (some ("nova".toList)) (some ("ly".toList)) ("novaly".toList) =
      true ∧
    ["novaly".toList].countP
        (fun nm => CS.psCredit (some ("nova".toList)) (some ("ly".toList)) nm) =
      1 := by
  have h := c8_substring_before_suffix ("nova".toList) ("ly".toList)
    (by decide) (by decide)
  exact ⟨(h.1 ("novaly".toList)).mpr (Or.inl (by decide)),
    h.2.1 ("novaly".toList) (by decide) (by decide)⟩

/-- C5: the count sub-score formula is 1.0 exactly on the tolerance band
`0.8 ≤ found/target ≤ 1.2`, equals `ratio/0.8` below the band and
`1.2/ratio` above it, stays in `[0, 1]`, is strictly increasing in the
ratio below the band and strictly decreasing above it, and takes the
value 0.5 at ratio 0.4 (2 of 5) and at ratio 2.4 (12 of 5). -/
theorem c5_count_band :
    (∀ f t : Nat, 0 < t →
      ((CS.countScore f t = 1 ↔
          4 / 5 ≤ (f : ℚ) / (t : ℚ) ∧ (f : ℚ) / (t : ℚ) ≤ 6 / 5) ∧
        ((f : ℚ) / (t : ℚ) < 4 / 5 →
          CS.countScore f t = ((f : ℚ) / (t : ℚ)) / (4 / 5)) ∧
        (6 / 5 < (f : ℚ) / (t : ℚ) →
          CS.countScore f t = (6 / 5) / ((f : ℚ) / (t : ℚ))) ∧
        0 ≤ CS.countScore f t ∧ CS.countScore f t ≤ 1)) ∧
    (∀ f t f2 t2 : Nat, 0 < t → 0 < t2 →
      (f : ℚ) / (t : ℚ) < (f2 : ℚ) / (t2 : ℚ) → (f2 : ℚ) / (t2 : ℚ) < 4 / 5 →
      CS.countScore f t < CS.countScore f2 t2) ∧
    (∀ f t f2 t2 : Nat, 0 < t → 0 < t2 →
      6 / 5 < (f : ℚ) / (t : ℚ) → (f : ℚ) / (t : ℚ) < (f2 : ℚ) / (t2 : ℚ) →
      CS.countScore f2 t2 < CS.countScore f t) ∧
    CS.countScore 2 5 = 1 / 2 ∧ CS.countScore 12 5 = 1 / 2 := by
  have hratio0 : ∀ f t : Nat, (0 : ℚ) ≤ (f : ℚ) / (t : ℚ) := by
    intro f t
    positivity
  have hval : ∀ f t : Nat,
      (4 / 5 ≤ (f : ℚ) / (t : ℚ) ∧ (f : ℚ) / (t : ℚ) ≤ 6 / 5 →
        CS.countScore f t = 1) ∧
      ((f : ℚ) / (t : ℚ) < 4 / 5 →
        CS.countScore f t = ((f : ℚ) / (t : ℚ)) * (5 / 4)) ∧
      (6 / 5 < (f : ℚ) / (t : ℚ) →
        CS.countScore f t = (6 / 5) / ((f : ℚ) / (t : ℚ))) := by
    intro f t
    unfold CS.countScore
    refine ⟨fun hband => by rw [if_pos hband], fun hlt => ?_, fun hgt => ?_⟩
    · rw [if_neg (by intro hband; linarith [hband.1]), if_pos hlt]
      ring
    · rw [if_neg (by intro hband; linarith [hband.2]),
        if_neg (by intro hlt; linarith)]
  refine ⟨?_, ?_, ?_, ?_, ?_⟩
  · intro f t _
    obtain ⟨h1, h2, h3⟩ := hval f t
    have h0 := hratio0 f t
    constructor
    · constructor
      · intro hone
        by_contra hout
        push_neg at hout
        rcases lt_or_le ((f : ℚ) / (t : ℚ)) (4 / 5) with hlt | hge
        · rw [h2 hlt] at hone
          nlinarith
        · have hgt : 6 / 5 < (f : ℚ) / (t : ℚ) := hout hge
          rw [h3 hgt] at hone
          have hpos : (0 : ℚ) < (f : ℚ) / (t : ℚ) := by linarith
          rw [div_eq_one_iff_eq (by linarith)] at hone
          linarith
      · exact h1
    · refine ⟨fun hlt => by rw [h2 hlt]; ring, h3, ?_, ?_⟩
      · rcases lt_or_le ((f : ℚ) / (t : ℚ)) (4 / 5) with hlt | hge
        · rw [h2 hlt]
          positivity
        · rcases le_or_lt ((f : ℚ) / (t : ℚ)) (6 / 5) with hle | hgt
          · rw [h1 ⟨hge, hle⟩]
            norm_num
          · rw [h3 hgt]
            positivity
      · rcases lt_or_le ((f : ℚ) / (t : ℚ)) (4 / 5) with hlt | hge
        · rw [h2 hlt]
          nlinarith
        · rcases le_or_lt ((f : ℚ) / (t : ℚ)) (6 / 5) with hle | hgt
          · rw [h1 ⟨hge, hle⟩]
          · rw [h3 hgt]
            rw [div_le_one (by linarith)]
            linarith
  · intro f t f2 t2 _ _ hlt hband
    obtain ⟨_, h2, _⟩ := hval f t
    obtain ⟨_, h2b, _⟩ := hval f2 t2
    rw [h2 (lt_trans hlt hband), h2b hband]
    have h0 := hratio0 f t
    nlinarith
  · intro f t f2 t2 _ _ hgt hlt
    obtain ⟨_, _, h3⟩ := hval f t
    obtain ⟨_, _, h3b⟩ := hval f2 t2
    rw [h3 hgt, h3b (lt_trans hgt hlt)]
    apply div_lt_div_of_pos_left
    · norm_num
    · linarith
    · exact hlt
  · norm_num [CS.countScore]
  · norm_num [CS.countScore]

/-- C5 witness: the band boundary facts applied at found 2, target 5. -/
theorem c5_count_band_witness :
    0 ≤ CS.countScore 2 5 ∧ CS.countScore 2 5 ≤ 1 :=
  ⟨((c5_count_band.1 2 5 (by decide)).2.2.2).1,
    ((c5_count_band.1 2 5 (by decide)).2.2.2).2⟩

/-- C2 counterexample: at previous value 0 and new value 0.0005 the
difference is 0.0005, within the claimed 0.001 epsilon, yet
`compare_results` classifies the field as up, not unchanged — the code
applies a strict sign test with no epsilon. -/
theorem c2_no_epsilon_counterexample :
    RE.compare_arrow 0 (1 / 2000) = RE.Arrow.up ∧
    RE.spec_arrow 0 (1 / 2000) = RE.Arrow.flat ∧
    RE.compare_arrow 0 (1 / 2000) ≠ RE.spec_arrow 0 (1 / 2000) := by
  have h1 : RE.compare_arrow 0 (1 / 2000) = RE.Arrow.up := by
    unfold RE.compare_arrow
    norm_num
  have h2 : RE.spec_arrow 0 (1 / 2000) = RE.Arrow.flat := by
    unfold RE.spec_arrow
    rw [if_pos]
    rw [show (1 / 2000 : ℚ) - 0 = 1 / 2000 by norm_num,
      abs_of_nonneg (by norm_num)]
    norm_num
  refine ⟨h1, h2, ?_⟩
  rw [h1, h2]
  decide

/-- C2 amended: `compare_results` classifies each field by the strict sign
of the difference — up exactly when the new value is larger, down
exactly when it is smaller, unchanged exactly when the two values are
equal; no epsilon is involved. -/
theorem c2_sign_classification (v1 v2 : ℚ) :
    (RE.compare_arrow v1 v2 = RE.Arrow.up ↔ v1 < v2) ∧
    (RE.compare_arrow v1 v2 = RE.Arrow.down ↔ v2 < v1) ∧
    (RE.compare_arrow v1 v2 = RE.Arrow.flat ↔ v1 = v2) := by
  unfold RE.compare_arrow
  split_ifs with h1 h2
  · refine ⟨?_, ?_, ?_⟩ <;> simp <;> try linarith
  · refine ⟨?_, ?_, ?_⟩ <;> simp <;> try linarith
  · refine ⟨?_, ?_, ?_⟩ <;> simp <;> try linarith

/-- C1 counterexample: with the two configured judges at weight 0.5
each, judge 1 timing out and judge 2 returning the all-9 verdict, the
blended verdict is the all-7 midpoint — not the surviving judge's
verdict unchanged: the timeout is caught inside `call_judge` and
replaced by the neutral all-5 verdict, which still contributes with its
weight. -/
theorem c1_timeout_counterexample :
    (RL.score_candidate ("x.com".toList)
        [(1 / 2, Except.ok RL.JudgeReply.timeoutErr),
          (1 / 2, Except.ok (RL.JudgeReply.parsed ⟨9, 9, 9, 9, 9⟩))]).scores =
      some ⟨7, 7, 7, 7, 7⟩ ∧
    (RL.score_candidate ("x.com".toList)
        [(1 / 2, Except.ok RL.JudgeReply.timeoutErr),
          (1 / 2, Except.ok (RL.JudgeReply.parsed ⟨9, 9, 9, 9, 9⟩))]).scores ≠
      some ⟨9, 9, 9, 9, 9⟩ ∧
    (RL.score_candidate ("x.com".toList)
        [(1 / 2, Except.ok RL.JudgeReply.timeoutErr),
          (1 / 2, Except.ok (RL.JudgeReply.parsed ⟨9, 9, 9, 9, 9⟩))]).combined_score =
      7 := by
  have hs : (RL.score_candidate ("x.com".toList)
      [(1 / 2, Except.ok RL.JudgeReply.timeoutErr),
        (1 / 2, Except.ok (RL.JudgeReply.parsed ⟨9, 9, 9, 9, 9⟩))]).scores =
      some ⟨7, 7, 7, 7, 7⟩ := by
    norm_num [RL.score_candidate, RL.call_judge, RL.neutralVerdict, Except.map,
      List.filterMap_cons]
  refine ⟨hs, ?_, ?_⟩
  · rw [hs]
    intro h
    have := Option.some.inj h
    have hb := congrArg RL.Verdict.brandability this
    norm_num at hb
  · norm_num [RL.score_candidate, RL.call_judge, RL.neutralVerdict, Except.map,
      List.filterMap_cons]

/-- C1 amended: when one of the two judges times out and the other
returns a parsable verdict, the timed-out judge contributes the neutral
all-5 verdict at its configured weight — `total_weight` covers both
judges, not only the survivor — so each blended field is the weighted
average of 5 and the surviving judge's value, and the combined score is
the fixed 0.25/0.20/0.25/0.15/0.15 blend of those averages: a
well-defined rational for any positive total weight. -/
theorem c1_timeout_blend (dom : List Char) (v : RL.Verdict) (w1 w2 : ℚ)
    (h : 0 < w1 + w2) :
    (RL.score_candidate dom
        [(w1, Except.ok RL.JudgeReply.timeoutErr),
          (w2, Except.ok (RL.JudgeReply.parsed v))]).scores =
      some ⟨(5 * w1 + v.brandability * w2) / (w1 + w2),
            (5 * w1 + v.pronounceability * w2) / (w1 + w2),
            (5 * w1 + v.constraint * w2) / (w1 + w2),
            (5 * w1 + v.creativity * w2) / (w1 + w2),
            (5 * w1 + v.overall * w2) / (w1 + w2)⟩ ∧
    (RL.score_candidate dom
        [(w1, Except.ok RL.JudgeReply.timeoutErr),
          (w2, Except.ok (RL.JudgeReply.parsed v))]).combined_score =
      ((5 * w1 + v.brandability * w2) / (w1 + w2)) * (1 / 4) +
        ((5 * w1 + v.pronounceability * w2) / (w1 + w2)) * (1 / 5) +
        ((5 * w1 + v.constraint * w2) / (w1 + w2)) * (1 / 4) +
        ((5 * w1 + v.creativity * w2) / (w1 + w2)) * (3 / 20) +
        ((5 * w1 + v.overall * w2) / (w1 + w2)) * (3 / 20) := by
  have e1 : RL.call_judge RL.JudgeReply.timeoutErr = RL.neutralVerdict := rfl
  have e2 : RL.call_judge (RL.JudgeReply.parsed v) = v := rfl
  unfold RL.score_candidate
  simp only [Except.map, e1, e2, RL.neutralVerdict, List.map_cons, List.map_nil,
    List.filterMap_cons, List.filterMap_nil, List.sum_cons, List.sum_nil,
    List.isEmpty_cons, Bool.false_eq_true, if_false, add_zero, h, if_true]
  exact ⟨trivial, trivial⟩

/-- C1 witness: the blend theorem applied at the configured equal
weights and an all-8 surviving verdict. -/
theorem c1_timeout_blend_witness :
    (RL.score_candidate ("y.io".toList)
        [(1 / 2, Except.ok RL.JudgeReply.timeoutErr),
          (1 / 2, Except.ok (RL.JudgeReply.parsed ⟨8, 8, 8, 8, 8⟩))]).scores =
      some ⟨(5 * (1 / 2) + 8 * (1 / 2)) / (1 / 2 + 1 / 2),
            (5 * (1 / 2) + 8 * (1 / 2)) / (1 / 2 + 1 / 2),
            (5 * (1 / 2) + 8 * (1 / 2)) / (1 / 2 + 1 / 2),
            (5 * (1 / 2) + 8 * (1 / 2)) / (1 / 2 + 1 / 2),
            (5 * (1 / 2) + 8 * (1 / 2)) / (1 / 2 + 1 / 2)⟩ :=
  (c1_timeout_blend ("y.io".toList) ⟨8, 8, 8, 8, 8⟩ (1 / 2) (1 / 2)
    (by norm_num)).1

theorem cleanLine_sound (line : List Char) (d : List Char)
    (h : RL.cleanLine line = some d) :
    d ≠ [] ∧ d.contains '.' = true ∧ d.length < 50 := by
  have hfin : ∀ l : List Char, RL.finishLine l = some d →
      d ≠ [] ∧ d.contains '.' = true ∧ d.length < 50 := by
    intro l hl
    unfold RL.finishLine at hl
    dsimp only at hl
    split_ifs at hl with hcond
    · rw [Option.some.injEq] at hl
      subst hl
      simp only [Bool.and_eq_true, Bool.not_eq_true', decide_eq_true_eq] at hcond
      exact ⟨List.isEmpty_eq_false.mp hcond.1.1, hcond.1.2, hcond.2⟩
  unfold RL.cleanLine at h
  dsimp only at h
  split_ifs at h
  exact hfin _ h

/-- C10: the RLHF line-based candidate extractor returns at most 10
domains, each non-empty, containing at least one dot and strictly
shorter than 50 characters; and the deduplicated candidate pool sent to
the judges holds at most `2 * candidates_per_prompt` entries. -/
theorem c10_extraction_caps :
    (∀ response : List Char,
      (RL.extract_domains_from_response response).length ≤ 10) ∧
    (∀ (response : List Char) (d : List Char),
      d ∈ RL.extract_domains_from_response response →
        d ≠ [] ∧ d.contains '.' = true ∧ d.length < 50) ∧
    (∀ (all_domains : List (List Char)) (cpp : Nat),
      (RL.candidate_pool all_domains cpp).length ≤ 2 * cpp) := by
  refine ⟨?_, ?_, ?_⟩
  · intro response
    unfold RL.extract_domains_from_response
    exact List.length_take_le 10 _
  · intro response d hd
    unfold RL.extract_domains_from_response at hd
    have hd2 := List.mem_of_mem_take hd
    obtain ⟨line, _, hline⟩ := List.mem_filterMap.mp hd2
    exact cleanLine_sound line d hline
  · intro all_domains cpp
    unfold RL.candidate_pool
    calc (all_domains.dedup.take (cpp * 2)).length ≤ cpp * 2 :=
          List.length_take_le _ _
      _ = 2 * cpp := Nat.mul_comm cpp 2

/-- C10 witness: the caps applied to a concrete one-line response. -/
theorem c10_extraction_caps_witness :
    ("a.com".toList ≠ [] ∧ ("a.com".toList).contains '.' = true ∧
      ("a.com".toList).length < 50) ∧
    (RL.candidate_pool ["a.com".toList, "a.com".toList, "b.io".toList] 1).length ≤
      2 * 1 :=
  ⟨c10_extraction_caps.2.1 ("a.com".toList) ("a.com".toList) (by decide),
    c10_extraction_caps.2.2 ["a.com".toList, "a.com".toList, "b.io".toList] 1⟩

theorem inUnit_zero : inUnit 0 := by norm_num [inUnit]

theorem inUnit_one : inUnit 1 := by norm_num [inUnit]

theorem inUnit_min1 {a : ℚ} (ha : 0 ≤ a) : inUnit (min a 1) :=
  ⟨le_min ha (by norm_num), min_le_right a 1⟩

theorem inUnit_avg4 {a b c d : ℚ} (ha : inUnit a) (hb : inUnit b)
    (hc : inUnit c) (hd : inUnit d) : inUnit ((a + b + c + d) / 4) := by
  obtain ⟨ha0, ha1⟩ := ha
  obtain ⟨hb0, hb1⟩ := hb
  obtain ⟨hc0, hc1⟩ := hc
  obtain ⟨hd0, hd1⟩ := hd
  constructor <;> [linarith; linarith]

theorem inUnit_dedup_ratio {α : Type} [DecidableEq α] (l : List α) :
    inUnit ((l.dedup.length : ℚ) / (l.length : ℚ)) :=
  inUnit_div_of_le (List.Sublist.length_le (List.dedup_sublist l))

theorem countScore_inUnit (f t : Nat) :
    inUnit (CS.countScore f t) := by
  unfold CS.countScore
  dsimp only
  have h0 : (0 : ℚ) ≤ (f : ℚ) / (t : ℚ) := by positivity
  split_ifs with hband hlt
  · exact inUnit_one
  · constructor
    · positivity
    · rw [div_le_one (by norm_num)]
      linarith
  · have hgt : 6 / 5 < (f : ℚ) / (t : ℚ) := by
      push_neg at hband
      rcases lt_or_le ((f : ℚ) / (t : ℚ)) (4 / 5) with hc | hc
      · exact absurd hc hlt
      · exact hband hc
    constructor
    · positivity
    · rw [div_le_one (by linarith)]
      linarith

theorem vowel_ratio_inUnit (name : List Char) :
    inUnit (PN.calculate_vowel_ratio name) := by
  unfold PN.calculate_vowel_ratio
  dsimp only
  split_ifs <;> norm_num [inUnit]

theorem cluster_score_inUnit (name : List Char) :
    inUnit (PN.calculate_consonant_cluster_score name) := by
  unfold PN.calculate_consonant_cluster_score
  dsimp only
  split_ifs <;> norm_num [inUnit]

theorem pattern_score_inUnit (name : List Char) :
    inUnit (PN.calculate_pattern_score name) := by
  unfold PN.calculate_pattern_score
  dsimp only
  exact inUnit_min1 (by positivity)

theorem length_score_inUnit (name : List Char) :
    inUnit (PN.calculate_length_score name) := by
  unfold PN.calculate_length_score
  dsimp only
  split_ifs <;> norm_num [inUnit]

theorem check_pronounceability_inUnit (name : List Char) :
    pronounceInUnit (PN.check_pronounceability name) := by
  unfold PN.check_pronounceability
  dsimp only
  split_ifs
  · exact ⟨inUnit_zero, inUnit_zero, inUnit_zero, inUnit_zero, inUnit_zero⟩
  · have h1 := vowel_ratio_inUnit ((lowerStr name).filter isLowerAlpha)
    have h2 := cluster_score_inUnit ((lowerStr name).filter isLowerAlpha)
    have h3 := pattern_score_inUnit ((lowerStr name).filter isLowerAlpha)
    have h4 := length_score_inUnit name
    obtain ⟨h10, h11⟩ := h1
    obtain ⟨h20, h21⟩ := h2
    obtain ⟨h30, h31⟩ := h3
    obtain ⟨h40, h41⟩ := h4
    exact ⟨round3_inUnit ⟨h10, h11⟩, round3_inUnit ⟨h20, h21⟩,
      round3_inUnit ⟨h30, h31⟩, round3_inUnit ⟨h40, h41⟩,
      round3_inUnit ⟨by linarith, by linarith⟩⟩

theorem check_pronounceability_response_inUnit (response : List Char) :
    pronounceInUnit (PN.check_pronounceability_response response) := by
  unfold PN.check_pronounceability_response
  dsimp only
  split_ifs with hemp
  · exact ⟨inUnit_zero, inUnit_zero, inUnit_zero, inUnit_zero, inUnit_zero⟩
  · have hne : PN.parse_domain_names response ≠ [] := by simpa using hemp
    have hmaplen : ((PN.parse_domain_names response).map PN.check_pronounceability).length =
        (PN.parse_domain_names response).length := List.length_map _ _
    have hne2 : (PN.parse_domain_names response).map PN.check_pronounceability ≠ [] := by
      simpa using hne
    refine ⟨round3_inUnit ?_, round3_inUnit ?_, round3_inUnit ?_,
      round3_inUnit ?_, round3_inUnit ?_⟩ <;>
      (refine inUnit_avg_map _ _ hne2 ?_
       intro r hr
       obtain ⟨nm, _, rfl⟩ := List.mem_map.mp hr)
    · exact (check_pronounceability_inUnit nm).1
    · exact (check_pronounceability_inUnit nm).2.1
    · exact (check_pronounceability_inUnit nm).2.2.1
    · exact (check_pronounceability_inUnit nm).2.2.2.1
    · exact (check_pronounceability_inUnit nm).2.2.2.2

theorem pm_length_score_inUnit (name : List Char) :
    inUnit (PM.calculate_length_score name) := by
  unfold PM.calculate_length_score
  dsimp only
  split_ifs <;> norm_num [inUnit]

theorem pm_word_score_inUnit (name : List Char) :
    inUnit (PM.calculate_word_score name) := by
  unfold PM.calculate_word_score
  dsimp only
  refine inUnit_min1 ?_
  have h1 : (0 : ℚ) ≤
      (if PM.VALUABLE_WORDS.any (fun w => containsSub w (lowerStr name)) then 1 / 5 else 0) := by
    split_ifs <;> norm_num
  have h2 : (0 : ℚ) ≤
      (if PM.VALUABLE_SUFFIXES.any (fun s => endsWithL s (lowerStr name)) then 3 / 20 else 0) := by
    split_ifs <;> norm_num
  have h3 : (0 : ℚ) ≤
      (if PM.pyIsAlpha (lowerStr name) && decide ((lowerStr name).length ≤ 8) then 1 / 10 else 0) := by
    split_ifs <;> norm_num
  linarith

set_option maxHeartbeats 1000000 in
theorem pm_tld_score_inUnit (tld : List Char) :
    inUnit (PM.calculate_tld_score tld) := by
  unfold PM.calculate_tld_score PM.tldValue
  split_ifs <;> norm_num [inUnit]

theorem pm_pattern_score_inUnit (name : List Char) :
    inUnit (PM.calculate_pattern_score name) := by
  unfold PM.calculate_pattern_score
  dsimp only
  refine inUnit_min1 ?_
  have h1 : (0 : ℚ) ≤ (if PM.pyIsAlpha (lowerStr name) then 1 / 5 else 0) := by
    split_ifs <;> norm_num
  have h2 : (0 : ℚ) ≤ (if !PM.hasTripleRun (lowerStr name) then 1 / 10 else 0) := by
    split_ifs <;> norm_num
  have h3 : (0 : ℚ) ≤
      (match lowerStr name with
        | c :: _ => if isAsciiLetter c then (1 : ℚ) / 10 else 0
        | [] => 0) := by
    cases lowerStr name
    · norm_num
    · dsimp only
      split_ifs <;> norm_num
  have h4 : (0 : ℚ) ≤ (if !(lowerStr name).contains '-' then 1 / 10 else 0) := by
    split_ifs <;> norm_num
  linarith

theorem pm_memorability_score_inUnit (name : List Char) :
    inUnit (PM.calculate_memorability_score name) := by
  unfold PM.calculate_memorability_score
  dsimp only
  refine inUnit_min1 ?_
  have h1 : (0 : ℚ) ≤ (if (lowerStr name).length ≤ 7 then 1 / 5 else 0) := by
    split_ifs <;> norm_num
  have h2 : (0 : ℚ) ≤ (if (lowerStr name).any PN.isVowel5 then 1 / 10 else 0) := by
    split_ifs <;> norm_num
  have h3 : (0 : ℚ) ≤ (if !PM.hasRarePair (lowerStr name) then 1 / 10 else 0) := by
    split_ifs <;> norm_num
  have h4 : (0 : ℚ) ≤
      ((lowerStr name).countP PM.isEasyChar : ℚ) / ((lowerStr name).length : ℚ) := by
    positivity
  linarith

theorem check_premium_inUnit (name tld : List Char) :
    premiumInUnit (PM.check_premium name tld) := by
  unfold PM.check_premium
  dsimp only
  obtain ⟨h10, h11⟩ := pm_length_score_inUnit name
  obtain ⟨h20, h21⟩ := pm_word_score_inUnit name
  obtain ⟨h30, h31⟩ := pm_tld_score_inUnit tld
  obtain ⟨h40, h41⟩ := pm_pattern_score_inUnit name
  obtain ⟨h50, h51⟩ := pm_memorability_score_inUnit name
  exact ⟨round3_inUnit ⟨h10, h11⟩, round3_inUnit ⟨h20, h21⟩,
    round3_inUnit ⟨h30, h31⟩, round3_inUnit ⟨h40, h41⟩,
    round3_inUnit ⟨h50, h51⟩, round3_inUnit ⟨by linarith, by linarith⟩⟩

theorem check_premium_response_inUnit (response : List Char) :
    premiumInUnit (PM.check_premium_response response) := by
  unfold PM.check_premium_response
  dsimp only
  split_ifs with hemp
  · exact ⟨inUnit_zero, inUnit_zero, inUnit_zero, inUnit_zero, inUnit_zero,
      inUnit_zero⟩
  · have hne : PM.parse_domains response ≠ [] := by simpa using hemp
    have hne2 : (PM.parse_domains response).map
        (fun d => PM.check_premium d.1 d.2) ≠ [] := by simpa using hne
    refine ⟨round3_inUnit ?_, round3_inUnit ?_, round3_inUnit ?_,
      round3_inUnit ?_, round3_inUnit ?_, round3_inUnit ?_⟩ <;>
      (refine inUnit_avg_map _ _ hne2 ?_
       intro r hr
       obtain ⟨d, _, rfl⟩ := List.mem_map.mp hr)
    · exact (check_premium_inUnit d.1 d.2).1
    · exact (check_premium_inUnit d.1 d.2).2.1
    · exact (check_premium_inUnit d.1 d.2).2.2.1
    · exact (check_premium_inUnit d.1 d.2).2.2.2.1
    · exact (check_premium_inUnit d.1 d.2).2.2.2.2.1
    · exact (check_premium_inUnit d.1 d.2).2.2.2.2.2

theorem ttr_inUnit (names : List (List Char)) : inUnit (DM.calculate_ttr names) := by
  simp only [DM.calculate_ttr]
  split_ifs
  · exact inUnit_zero
  · exact inUnit_one
  · exact inUnit_dedup_ratio _

theorem duplicate_rate_inUnit (names : List (List Char)) :
    inUnit (DM.calculate_duplicate_rate names) := by
  simp only [DM.calculate_duplicate_rate]
  split_ifs with hemp
  · exact inUnit_zero
  · have hne : names ≠ [] := by simpa using hemp
    have hpos : (0 : ℚ) < (names.length : ℚ) := by
      have : 0 < names.length := List.length_pos.mpr hne
      exact_mod_cast this
    have hle : (names.dedup.length : ℚ) ≤ (names.length : ℚ) := by
      exact_mod_cast List.Sublist.length_le (List.dedup_sublist names)
    have hd0 : (0 : ℚ) ≤ (names.dedup.length : ℚ) := by positivity
    constructor
    · apply div_nonneg (by linarith) (by linarith)
    · rw [div_le_one hpos]
      linarith

theorem char_diversity_inUnit (names : List (List Char)) :
    inUnit (DM.calculate_char_diversity names) := by
  simp only [DM.calculate_char_diversity]
  split_ifs
  · exact inUnit_zero
  · exact inUnit_zero
  · exact inUnit_min1 (by positivity)

theorem prefix_diversity_inUnit (names : List (List Char)) :
    inUnit (DM.calculate_prefix_diversity names) := by
  simp only [DM.calculate_prefix_diversity]
  split_ifs
  · exact inUnit_zero
  · exact inUnit_dedup_ratio _

theorem suffix_diversity_inUnit (names : List (List Char)) :
    inUnit (DM.calculate_suffix_diversity names) := by
  simp only [DM.calculate_suffix_diversity]
  split_ifs
  · exact inUnit_zero
  · exact inUnit_dedup_ratio _

theorem check_diversity_inUnit (response : List Char) :
    diversityInUnit (DM.check_diversity response) := by
  simp only [DM.check_diversity]
  split_ifs
  · exact ⟨inUnit_zero, inUnit_one, inUnit_zero, inUnit_zero, inUnit_zero,
      inUnit_zero⟩
  · obtain ⟨h10, h11⟩ := ttr_inUnit (DM.parse_domain_names response)
    obtain ⟨h20, h21⟩ := duplicate_rate_inUnit (DM.parse_domain_names response)
    obtain ⟨h30, h31⟩ := char_diversity_inUnit (DM.parse_domain_names response)
    obtain ⟨h40, h41⟩ := prefix_diversity_inUnit (DM.parse_domain_names response)
    obtain ⟨h50, h51⟩ := suffix_diversity_inUnit (DM.parse_domain_names response)
    exact ⟨round3_inUnit ⟨h10, h11⟩, round3_inUnit ⟨h20, h21⟩,
      round3_inUnit ⟨h30, h31⟩, round3_inUnit ⟨h40, h41⟩,
      round3_inUnit ⟨h50, h51⟩, round3_inUnit ⟨by linarith, by linarith⟩⟩

theorem check_constraints_inUnit (pc : CS.PromptC) (response : List Char) :
    constraintInUnit (CS.check_constraints pc response) := by
  simp only [CS.check_constraints]
  by_cases hemp : (CS.parse_domains_from_response response).isEmpty = true
  · rw [if_pos hemp]
    exact ⟨inUnit_zero, inUnit_zero, inUnit_zero, inUnit_zero, inUnit_zero⟩
  · rw [if_neg hemp]
    refine ⟨round3_inUnit ?_, round3_inUnit ?_, round3_inUnit ?_,
      round3_inUnit ?_, round3_inUnit (inUnit_avg4 ?_ ?_ ?_ ?_)⟩
    case neg.refine_1 =>
      rcases pc.lengthC with _ | ⟨mn, mx⟩
      · exact inUnit_one
      · exact inUnit_div_of_le (List.countP_le_length _)
    case neg.refine_2 =>
      split_ifs
      · exact inUnit_div_of_le (List.countP_le_length _)
      · exact inUnit_one
    case neg.refine_3 =>
      split_ifs
      · exact inUnit_div_of_le (List.countP_le_length _)
      · exact inUnit_one
    case neg.refine_4 =>
      split_ifs
      · exact countScore_inUnit _ _
      · exact inUnit_one
    case neg.refine_5 =>
      rcases pc.lengthC with _ | ⟨mn, mx⟩
      · exact inUnit_one
      · exact inUnit_div_of_le (List.countP_le_length _)
    case neg.refine_6 =>
      split_ifs
      · exact inUnit_div_of_le (List.countP_le_length _)
      · exact inUnit_one
    case neg.refine_7 =>
      split_ifs
      · exact inUnit_div_of_le (List.countP_le_length _)
      · exact inUnit_one
    case neg.refine_8 =>
      split_ifs
      · exact countScore_inUnit _ _
      · exact inUnit_one

/-- C4: for every prompt (abstracted as its extracted constraint values)
and every response, and for every name and TLD, each named sub-score and
the overall of the four rubric results lies in the closed interval
[0, 1] — both the returned fields (after rounding to 3 decimals) and the
underlying unrounded sub-score functions. -/
theorem c4_scores_in_unit_interval :
    (∀ (pc : CS.PromptC) (response : List Char),
      constraintInUnit (CS.check_constraints pc response)) ∧
    (∀ response : List Char, diversityInUnit (DM.check_diversity response)) ∧
    (∀ name : List Char, pronounceInUnit (PN.check_pronounceability name)) ∧
    (∀ response : List Char,
      pronounceInUnit (PN.check_pronounceability_response response)) ∧
    (∀ name tld : List Char, premiumInUnit (PM.check_premium name tld)) ∧
    (∀ response : List Char, premiumInUnit (PM.check_premium_response response)) ∧
    (∀ f t : Nat, inUnit (CS.countScore f t)) ∧
    (∀ names : List (List Char),
      inUnit (DM.calculate_ttr names) ∧
        inUnit (DM.calculate_duplicate_rate names) ∧
        inUnit (DM.calculate_char_diversity names) ∧
        inUnit (DM.calculate_prefix_diversity names) ∧
        inUnit (DM.calculate_suffix_diversity names)) ∧
    (∀ name : List Char,
      inUnit (PN.calculate_vowel_ratio name) ∧
        inUnit (PN.calculate_consonant_cluster_score name) ∧
        inUnit (PN.calculate_pattern_score name) ∧
        inUnit (PN.calculate_length_score name)) ∧
    (∀ name tld : List Char,
      inUnit (PM.calculate_length_score name) ∧
        inUnit (PM.calculate_word_score name) ∧
        inUnit (PM.calculate_tld_score tld) ∧
        inUnit (PM.calculate_pattern_score name) ∧
        inUnit (PM.calculate_memorability_score name)) :=
  ⟨check_constraints_inUnit, check_diversity_inUnit,
    check_pronounceability_inUnit, check_pronounceability_response_inUnit,
    check_premium_inUnit, check_premium_response_inUnit, countScore_inUnit,
    fun names => ⟨ttr_inUnit names, duplicate_rate_inUnit names,
      char_diversity_inUnit names, prefix_diversity_inUnit names,
      suffix_diversity_inUnit names⟩,
    fun name => ⟨vowel_ratio_inUnit name, cluster_score_inUnit name,
      pattern_score_inUnit name, length_score_inUnit name⟩,
    fun name tld => ⟨pm_length_score_inUnit name, pm_word_score_inUnit name,
      pm_tld_score_inUnit tld, pm_pattern_score_inUnit name,
      pm_memorability_score_inUnit name⟩⟩
